import Mathlib

/-!
Shallow embedding of the data-cleaning and derived-metric pipeline of the
COVID-19 Global Data Tracker repository (src/covid_tracker.py and
src/covid_dashboard.py).

A dataframe row is an `Obs`; a missing (NaN) cell of a numeric column is
`none`.  The per-location forward-fill
(`df.groupby('location')[metric].transform(lambda x: x.fillna(method='ffill'))`)
is modelled as a single scan over the row list carrying, per location, the
last non-missing value of the column being filled — pandas' groupby/transform
preserves the original row order and aligns the transformed values back to
the original positions, which is exactly what the scan does.
-/

namespace Covid

/-- The metric columns that the scripts forward-fill (`key_metrics` in
src/covid_tracker.py line 34 and src/covid_dashboard.py line 73). -/
inductive Metric where
  | total_cases
  | new_cases
  | total_deaths
  | new_deaths
  | total_vaccinations
  | people_vaccinated
  deriving DecidableEq

/-- One row of the OWID dataframe: the columns that the cleaning pipeline
reads or writes, plus representative untouched columns (`iso_code`,
`population`, `people_fully_vaccinated_per_hundred`).  A `none` cell models
a NaN entry.  `date` is a day number (calendar dates are totally ordered). -/
structure Obs where
  location : String
  iso_code : String
  date : Nat
  total_cases : Option ℚ
  new_cases : Option ℚ
  total_deaths : Option ℚ
  new_deaths : Option ℚ
  total_vaccinations : Option ℚ
  people_vaccinated : Option ℚ
  population : Option ℚ
  people_fully_vaccinated_per_hundred : Option ℚ
  death_rate : Option ℚ
  vaccination_rate : Option ℚ
  deriving DecidableEq

/-- A default row, used as the `List.getD` fallback. -/
def defaultObs : Obs :=
  { location := "", iso_code := "", date := 0, total_cases := none,
    new_cases := none, total_deaths := none, new_deaths := none,
    total_vaccinations := none, people_vaccinated := none, population := none,
    people_fully_vaccinated_per_hundred := none, death_rate := none,
    vaccination_rate := none }

/-- Read the cell of a forward-fillable metric column. -/
def Obs.getMetric (o : Obs) : Metric → Option ℚ
  | .total_cases => o.total_cases
  | .new_cases => o.new_cases
  | .total_deaths => o.total_deaths
  | .new_deaths => o.new_deaths
  | .total_vaccinations => o.total_vaccinations
  | .people_vaccinated => o.people_vaccinated

/-- Write the cell of a forward-fillable metric column. -/
def Obs.setMetric (o : Obs) (m : Metric) (v : Option ℚ) : Obs :=
  match m with
  | .total_cases => { o with total_cases := v }
  | .new_cases => { o with new_cases := v }
  | .total_deaths => { o with total_deaths := v }
  | .new_deaths => { o with new_deaths := v }
  | .total_vaccinations => { o with total_vaccinations := v }
  | .people_vaccinated => { o with people_vaccinated := v }

theorem Obs.getMetric_setMetric_self (o : Obs) (m : Metric) (v : Option ℚ) :
    (o.setMetric m v).getMetric m = v := by
  cases m <;> rfl

theorem Obs.getMetric_setMetric_ne (o : Obs) {m m' : Metric} (v : Option ℚ)
    (h : m ≠ m') : (o.setMetric m v).getMetric m' = o.getMetric m' := by
  cases m <;> cases m' <;> first | rfl | exact absurd rfl h

theorem Obs.setMetric_getMetric_self (o : Obs) (m : Metric) :
    o.setMetric m (o.getMetric m) = o := by
  cases m <;> rfl

theorem Obs.location_setMetric (o : Obs) (m : Metric) (v : Option ℚ) :
    (o.setMetric m v).location = o.location := by
  cases m <;> rfl

theorem Obs.date_setMetric (o : Obs) (m : Metric) (v : Option ℚ) :
    (o.setMetric m v).date = o.date := by
  cases m <;> rfl

theorem Obs.iso_code_setMetric (o : Obs) (m : Metric) (v : Option ℚ) :
    (o.setMetric m v).iso_code = o.iso_code := by
  cases m <;> rfl

theorem Obs.population_setMetric (o : Obs) (m : Metric) (v : Option ℚ) :
    (o.setMetric m v).population = o.population := by
  cases m <;> rfl

theorem Obs.pfvph_setMetric (o : Obs) (m : Metric) (v : Option ℚ) :
    (o.setMetric m v).people_fully_vaccinated_per_hundred =
      o.people_fully_vaccinated_per_hundred := by
  cases m <;> rfl

theorem Obs.death_rate_setMetric (o : Obs) (m : Metric) (v : Option ℚ) :
    (o.setMetric m v).death_rate = o.death_rate := by
  cases m <;> rfl

theorem Obs.vaccination_rate_setMetric (o : Obs) (m : Metric) (v : Option ℚ) :
    (o.setMetric m v).vaccination_rate = o.vaccination_rate := by
  cases m <;> rfl

theorem Obs.setMetric_setMetric_comm (o : Obs) {m m' : Metric}
    (v v' : Option ℚ) (h : m ≠ m') :
    (o.setMetric m v).setMetric m' v' = (o.setMetric m' v').setMetric m v := by
  cases m <;> cases m' <;> first | exact absurd rfl h | rfl

/-- Two rows agreeing on every field are equal. -/
theorem Obs.eq_of_fields {a b : Obs}
    (h1 : a.location = b.location) (h2 : a.iso_code = b.iso_code)
    (h3 : a.date = b.date) (h4 : ∀ m : Metric, a.getMetric m = b.getMetric m)
    (h5 : a.population = b.population)
    (h6 : a.people_fully_vaccinated_per_hundred =
            b.people_fully_vaccinated_per_hundred)
    (h7 : a.death_rate = b.death_rate)
    (h8 : a.vaccination_rate = b.vaccination_rate) : a = b := by
  cases a; cases b
  have htc := h4 .total_cases
  have hnc := h4 .new_cases
  have htd := h4 .total_deaths
  have hnd := h4 .new_deaths
  have htv := h4 .total_vaccinations
  have hpv := h4 .people_vaccinated
  simp only [Obs.getMetric] at htc hnc htd hnd htv hpv
  simp_all

/-- The forward-fill state: for each location already holding a non-missing
value of the column being filled, the most recently seen such value. -/
def lastSeen (st : List (String × ℚ)) (loc : String) : Option ℚ :=
  (st.find? (fun p => p.1 == loc)).map (fun p => p.2)

theorem lastSeen_cons (k : String) (v : ℚ) (st : List (String × ℚ))
    (loc : String) :
    lastSeen ((k, v) :: st) loc =
      if k == loc then some v else lastSeen st loc := by
  by_cases h : k == loc <;> simp [lastSeen, List.find?, h]

/-- Value of a fill scan: `lastFillVal init vals` is the value a forward-fill scan holds after
consuming `vals`, starting from carried value `init`: the last non-`none`
element of `vals`, or `init` when there is none. -/
def lastFillVal (init : Option ℚ) (vals : List (Option ℚ)) : Option ℚ :=
  vals.foldl (fun acc v => match v with | some w => some w | none => acc) init

theorem lastFillVal_nil (init : Option ℚ) : lastFillVal init [] = init := rfl

theorem lastFillVal_cons (init : Option ℚ) (v : Option ℚ)
    (vals : List (Option ℚ)) :
    lastFillVal init (v :: vals) =
      lastFillVal (match v with | some w => some w | none => init) vals := rfl

/-- The scan implementing
`groupby('location')[metric].transform(lambda x: x.fillna(method='ffill'))`:
rows are visited in dataframe order; a missing cell of column `m` is replaced
by the value the state carries for the row's location (if any); a non-missing
cell updates that state. -/
def ffillColGo (m : Metric) (st : List (String × ℚ)) : List Obs → List Obs
  | [] => []
  | o :: rest =>
    match o.getMetric m with
    | some v => o :: ffillColGo m ((o.location, v) :: st) rest
    | none =>
      (match lastSeen st o.location with
       | some v => o.setMetric m (some v)
       | none => o) :: ffillColGo m st rest

/-- Per-location forward-fill of one metric column
(src/covid_tracker.py lines 35–40, src/covid_dashboard.py lines 74–78,
one iteration of the `for metric in key_metrics` loop). -/
def ffillCol (m : Metric) (rows : List Obs) : List Obs := ffillColGo m [] rows

/-- The whole `for metric in key_metrics` loop.  In the modelled fixed
schema every metric column is present, so the `if metric in
filtered_df.columns` guard is always taken. -/
def forwardFill (ms : List Metric) (rows : List Obs) : List Obs :=
  ms.foldl (fun r m => ffillCol m r) rows

/-- List `key_metrics` of src/covid_tracker.py line 34. -/
def trackerMetrics : List Metric :=
  [.total_cases, .new_cases, .total_deaths, .new_deaths, .total_vaccinations]

/-- List `key_metrics` of src/covid_dashboard.py line 73. -/
def dashboardMetrics : List Metric :=
  [.total_cases, .new_cases, .total_deaths, .new_deaths, .total_vaccinations,
   .people_vaccinated]

theorem length_ffillColGo (m : Metric) (st : List (String × ℚ))
    (rows : List Obs) : (ffillColGo m st rows).length = rows.length := by
  induction rows generalizing st with
  | nil => rfl
  | cons o rest ih =>
    cases h : o.getMetric m <;> simp [ffillColGo, h, ih]

theorem length_ffillCol (m : Metric) (rows : List Obs) :
    (ffillCol m rows).length = rows.length :=
  length_ffillColGo m [] rows

theorem length_forwardFill (ms : List Metric) (rows : List Obs) :
    (forwardFill ms rows).length = rows.length := by
  induction ms generalizing rows with
  | nil => rfl
  | cons m ms ih =>
    show (forwardFill ms (ffillCol m rows)).length = rows.length
    rw [ih, length_ffillCol]

theorem lastSeen_nil (loc : String) : lastSeen [] loc = none := rfl

/-- The value the forward-fill of column `m` leaves at position `i`: the last
non-missing `m`-cell among the rows up to and including position `i` that
share position `i`'s location. -/
def ffillVal (m : Metric) (rows : List Obs) (i : Nat) : Option ℚ :=
  lastFillVal none
    (((rows.take (i + 1)).filter
        (fun o => o.location == (rows.getD i defaultObs).location)).map
      (fun o => o.getMetric m))

theorem ffillColGo_getD (m : Metric) :
    ∀ (rows : List Obs) (st : List (String × ℚ)) (i : Nat), i < rows.length →
    (ffillColGo m st rows).getD i defaultObs =
      (rows.getD i defaultObs).setMetric m
        (lastFillVal (lastSeen st (rows.getD i defaultObs).location)
          (((rows.take (i + 1)).filter
              (fun o => o.location == (rows.getD i defaultObs).location)).map
            (fun o => o.getMetric m))) := by
  intro rows
  induction rows with
  | nil => intro st i h; simp at h
  | cons o rest ih =>
    intro st i h
    cases i with
    | zero =>
      cases h' : o.getMetric m with
      | some v =>
        simp [ffillColGo, h', lastFillVal]
        rw [← h', Obs.setMetric_getMetric_self]
      | none =>
        cases h'' : lastSeen st o.location with
        | some v => simp [ffillColGo, h', h'', lastFillVal]
        | none =>
          simp [ffillColGo, h', h'', lastFillVal]
          rw [← h', Obs.setMetric_getMetric_self]
    | succ i =>
      have hlen : i < rest.length := by simpa using h
      cases h' : o.getMetric m with
      | some v =>
        have hrec := ih ((o.location, v) :: st) i hlen
        rw [lastSeen_cons] at hrec
        by_cases hB : (o.location == (rest.getD i defaultObs).location) = true
        · simp only [ffillColGo, h', List.getD_cons_succ, List.take_succ_cons,
            List.filter_cons, hB, if_pos, List.map_cons, lastFillVal_cons]
          rw [hrec, if_pos hB]
        · simp only [ffillColGo, h', List.getD_cons_succ, List.take_succ_cons,
            List.filter_cons, hB, Bool.false_eq_true, if_false]
          rw [hrec, if_neg hB]
      | none =>
        have hrec := ih st i hlen
        by_cases hB : (o.location == (rest.getD i defaultObs).location) = true
        · simp only [ffillColGo, h', List.getD_cons_succ, List.take_succ_cons,
            List.filter_cons, hB, if_pos, List.map_cons, lastFillVal_cons, h']
          exact hrec
        · simp only [ffillColGo, h', List.getD_cons_succ, List.take_succ_cons,
            List.filter_cons, hB, Bool.false_eq_true, if_false]
          exact hrec

/-- Pointwise description of the per-location forward-fill of one column:
the row keeps all its fields except column `m`, which becomes the last
non-missing `m`-value among the earlier (and own) rows of the same
location. -/
theorem ffillCol_getD (m : Metric) (rows : List Obs) (i : Nat)
    (h : i < rows.length) :
    (ffillCol m rows).getD i defaultObs =
      (rows.getD i defaultObs).setMetric m (ffillVal m rows i) := by
  have := ffillColGo_getD m rows [] i h
  rw [lastSeen_nil] at this
  exact this

/-- Forward-filling one column only rewrites that column: every other field
of every row is unchanged. -/
theorem ffillCol_getD_frame (m : Metric) (rows : List Obs) (i : Nat)
    (h : i < rows.length) :
    ((ffillCol m rows).getD i defaultObs).location =
        (rows.getD i defaultObs).location ∧
      ((ffillCol m rows).getD i defaultObs).iso_code =
        (rows.getD i defaultObs).iso_code ∧
      ((ffillCol m rows).getD i defaultObs).date =
        (rows.getD i defaultObs).date ∧
      ((ffillCol m rows).getD i defaultObs).population =
        (rows.getD i defaultObs).population ∧
      ((ffillCol m rows).getD i defaultObs).people_fully_vaccinated_per_hundred =
        (rows.getD i defaultObs).people_fully_vaccinated_per_hundred ∧
      ((ffillCol m rows).getD i defaultObs).death_rate =
        (rows.getD i defaultObs).death_rate ∧
      ((ffillCol m rows).getD i defaultObs).vaccination_rate =
        (rows.getD i defaultObs).vaccination_rate ∧
      ∀ m' : Metric, m ≠ m' →
        ((ffillCol m rows).getD i defaultObs).getMetric m' =
          (rows.getD i defaultObs).getMetric m' := by
  rw [ffillCol_getD m rows i h]
  refine ⟨Obs.location_setMetric _ _ _, Obs.iso_code_setMetric _ _ _,
    Obs.date_setMetric _ _ _, Obs.population_setMetric _ _ _,
    Obs.pfvph_setMetric _ _ _, Obs.death_rate_setMetric _ _ _,
    Obs.vaccination_rate_setMetric _ _ _, fun m' hne =>
      Obs.getMetric_setMetric_ne _ _ hne⟩

/-- The whole forward-fill loop only rewrites the listed metric columns:
every other field of every row is unchanged. -/
theorem forwardFill_getD_frame (ms : List Metric) (rows : List Obs) (i : Nat)
    (h : i < rows.length) :
    ((forwardFill ms rows).getD i defaultObs).location =
        (rows.getD i defaultObs).location ∧
      ((forwardFill ms rows).getD i defaultObs).iso_code =
        (rows.getD i defaultObs).iso_code ∧
      ((forwardFill ms rows).getD i defaultObs).date =
        (rows.getD i defaultObs).date ∧
      ((forwardFill ms rows).getD i defaultObs).population =
        (rows.getD i defaultObs).population ∧
      ((forwardFill ms rows).getD i defaultObs).people_fully_vaccinated_per_hundred =
        (rows.getD i defaultObs).people_fully_vaccinated_per_hundred ∧
      ((forwardFill ms rows).getD i defaultObs).death_rate =
        (rows.getD i defaultObs).death_rate ∧
      ((forwardFill ms rows).getD i defaultObs).vaccination_rate =
        (rows.getD i defaultObs).vaccination_rate ∧
      ∀ m' : Metric, m' ∉ ms →
        ((forwardFill ms rows).getD i defaultObs).getMetric m' =
          (rows.getD i defaultObs).getMetric m' := by
  induction ms generalizing rows with
  | nil =>
    exact ⟨rfl, rfl, rfl, rfl, rfl, rfl, rfl, fun _ _ => rfl⟩
  | cons m ms ih =>
    have h' : i < (ffillCol m rows).length := by rw [length_ffillCol]; exact h
    have hstep := ffillCol_getD_frame m rows i h
    have htail := ih (ffillCol m rows)
    show ((forwardFill ms (ffillCol m rows)).getD i defaultObs).location = _ ∧ _
    obtain ⟨t1, t2, t3, t4, t5, t6, t7, t8⟩ := htail h'
    obtain ⟨s1, s2, s3, s4, s5, s6, s7, s8⟩ := hstep
    refine ⟨t1.trans s1, t2.trans s2, t3.trans s3, t4.trans s4, t5.trans s5,
      t6.trans s6, t7.trans s7, fun m' hm' => ?_⟩
    have hne : m ≠ m' := fun hc => hm' (hc ▸ List.mem_cons_self m ms)
    have hnotin : m' ∉ ms := fun hc => hm' (List.mem_cons_of_mem m hc)
    exact (t8 m' hnotin).trans (s8 m' hne)

/-- Model of src/covid_tracker.py lines 43–47 (and src/covid_dashboard.py lines
81–85): `np.where((total_cases > 0) & (total_deaths.notna()),
total_deaths / total_cases * 100, np.nan)`, applied row-wise.  A NaN
`total_cases` does not satisfy `> 0`, so the condition fails on it. -/
def computeDeathRate (o : Obs) : Obs :=
  { o with death_rate :=
      match o.total_cases, o.total_deaths with
      | some c, some d => if 0 < c then some (d / c * 100) else none
      | some _, none => none
      | none, _ => none }

/-- Model of src/covid_dashboard.py lines 88–92: `np.where((population > 0) &
(people_vaccinated.notna()), people_vaccinated / population * 100,
np.nan)`, applied row-wise. -/
def computeVaccinationRate (o : Obs) : Obs :=
  { o with vaccination_rate :=
      match o.population, o.people_vaccinated with
      | some p, some pv => if 0 < p then some (pv / p * 100) else none
      | some _, none => none
      | none, _ => none }

/-- Model of src/covid_tracker.py line 28: `df[df['location'].isin(countries)]`. -/
def filterCountries (cs : List String) (rows : List Obs) : List Obs :=
  rows.filter (fun o => cs.contains o.location)

/-- List `countries` of src/covid_tracker.py line 27. -/
def trackerCountries : List String :=
  ["United States", "India", "Brazil", "United Kingdom", "Kenya"]

/-- The cleaning pipeline of src/covid_tracker.py lines 27–47: restrict to
the target countries, forward-fill the key metrics per location, then add
the death-rate column row-wise. -/
def cleanTracker (cs : List String) (rows : List Obs) : List Obs :=
  (forwardFill trackerMetrics (filterCountries cs rows)).map computeDeathRate

/-- Model of src/covid_dashboard.py lines 66–70: restrict to the selected countries
and the selected date range. -/
def filterDashboard (cs : List String) (d₁ d₂ : Nat) (rows : List Obs) :
    List Obs :=
  rows.filter (fun o =>
    cs.contains o.location && decide (d₁ ≤ o.date) && decide (o.date ≤ d₂))

/-- The cleaning pipeline of src/covid_dashboard.py lines 66–92: filter,
forward-fill the key metrics per location, then add the death-rate and
vaccination-rate columns row-wise. -/
def cleanDashboard (cs : List String) (d₁ d₂ : Nat) (rows : List Obs) :
    List Obs :=
  (forwardFill dashboardMetrics (filterDashboard cs d₁ d₂ rows)).map
    (fun o => computeVaccinationRate (computeDeathRate o))

theorem computeDeathRate_total_cases (o : Obs) :
    (computeDeathRate o).total_cases = o.total_cases := rfl

theorem computeDeathRate_total_deaths (o : Obs) :
    (computeDeathRate o).total_deaths = o.total_deaths := rfl

/-- Restriction of the single-column forward-fill scan to one location:
the rows of that location in the output are exactly what the scan produces
on that location's rows alone, for any pair of states carrying the same
value for that location. -/
theorem ffillColGo_filter (m : Metric) (loc : String) :
    ∀ (d : List Obs) (st₁ st₂ : List (String × ℚ)),
      lastSeen st₁ loc = lastSeen st₂ loc →
      (ffillColGo m st₁ d).filter (fun o => o.location == loc) =
        ffillColGo m st₂ (d.filter (fun o => o.location == loc)) := by
  intro d
  induction d with
  | nil => intro st₁ st₂ _; rfl
  | cons o rest ih =>
    intro st₁ st₂ hst
    by_cases hB : (o.location == loc) = true
    · have hloc : o.location = loc := by simpa using hB
      cases h' : o.getMetric m with
      | some v =>
        simp only [ffillColGo, h', List.filter_cons, hB, if_pos]
        refine congrArg (o :: ·) (ih _ _ ?_)
        rw [lastSeen_cons, lastSeen_cons, hB, if_pos rfl, if_pos rfl]
      | none =>
        have hhd :
            (match lastSeen st₁ o.location with
             | some v => o.setMetric m (some v)
             | none => o) =
            (match lastSeen st₂ o.location with
             | some v => o.setMetric m (some v)
             | none => o) := by rw [hloc, hst]
        simp only [ffillColGo, h', List.filter_cons, hB, if_pos]
        cases hs : lastSeen st₂ o.location with
        | some v =>
          rw [hloc] at hs
          rw [hloc, hst, hs]
          have hkeep : ((o.setMetric m (some v)).location == loc) = true := by
            rw [Obs.location_setMetric, hloc]; exact beq_self_eq_true loc
          simp only [List.filter_cons, hkeep, if_pos]
          exact congrArg _ (ih _ _ hst)
        | none =>
          rw [hloc] at hs
          rw [hloc, hst, hs]
          simp only [List.filter_cons, hB, if_pos]
          exact congrArg _ (ih _ _ hst)
    · cases h' : o.getMetric m with
      | some v =>
        simp only [ffillColGo, h', List.filter_cons, hB, Bool.false_eq_true,
          if_false]
        refine ih _ _ ?_
        rw [lastSeen_cons, if_neg hB]
        exact hst
      | none =>
        simp only [ffillColGo, h', List.filter_cons, hB, Bool.false_eq_true,
          if_false]
        cases hs : lastSeen st₁ o.location with
        | some v =>
          have hdrop : ((o.setMetric m (some v)).location == loc) = false := by
            rw [Obs.location_setMetric]
            exact Bool.not_eq_true _ ▸ (by simpa using hB)
          simp only [List.filter_cons, hdrop, Bool.false_eq_true, if_false]
          exact ih _ _ hst
        | none =>
          simp only [List.filter_cons, hB, Bool.false_eq_true, if_false]
          exact ih _ _ hst

/-- Forward-filling one column commutes with restricting to one location. -/
theorem ffillCol_filter (m : Metric) (loc : String) (d : List Obs) :
    (ffillCol m d).filter (fun o => o.location == loc) =
      ffillCol m (d.filter (fun o => o.location == loc)) :=
  ffillColGo_filter m loc d [] [] rfl

/-- The whole forward-fill loop commutes with restricting to one
location. -/
theorem forwardFill_filter (ms : List Metric) (loc : String) (d : List Obs) :
    (forwardFill ms d).filter (fun o => o.location == loc) =
      forwardFill ms (d.filter (fun o => o.location == loc)) := by
  induction ms generalizing d with
  | nil => rfl
  | cons m ms ih =>
    show (forwardFill ms (ffillCol m d)).filter _ = _
    rw [ih, ffillCol_filter]
    rfl

/-- Two fill states are interchangeable when they carry the same value for
every location. -/
def stEquiv (st₁ st₂ : List (String × ℚ)) : Prop :=
  ∀ loc : String, lastSeen st₁ loc = lastSeen st₂ loc

theorem stEquiv_cons (k : String) (v : ℚ) {st₁ st₂ : List (String × ℚ)}
    (h : stEquiv st₁ st₂) : stEquiv ((k, v) :: st₁) ((k, v) :: st₂) := by
  intro loc
  rw [lastSeen_cons, lastSeen_cons, h loc]

/-- Re-running the single-column scan on its own output changes nothing,
provided the incoming state carries the same values the original run
started from. -/
theorem ffillColGo_idem (m : Metric) :
    ∀ (d : List Obs) (st₁ st₂ : List (String × ℚ)), stEquiv st₁ st₂ →
      ffillColGo m st₁ (ffillColGo m st₂ d) = ffillColGo m st₂ d := by
  intro d
  induction d with
  | nil => intro st₁ st₂ _; rfl
  | cons o rest ih =>
    intro st₁ st₂ hst
    cases h' : o.getMetric m with
    | some v =>
      simp only [ffillColGo, h']
      exact congrArg _ (ih _ _ (stEquiv_cons o.location v hst))
    | none =>
      cases hs : lastSeen st₂ o.location with
      | some v =>
        simp only [ffillColGo, h', hs]
        have hget : (o.setMetric m (some v)).getMetric m = some v :=
          Obs.getMetric_setMetric_self o m (some v)
        simp only [ffillColGo, hget, Obs.location_setMetric]
        refine congrArg _ (ih _ _ ?_)
        intro loc
        rw [lastSeen_cons]
        by_cases hk : (o.location == loc) = true
        · have : o.location = loc := by simpa using hk
          rw [if_pos hk, ← this, hs]
        · rw [if_neg hk]
          exact hst loc
      | none =>
        simp only [ffillColGo, h', hs]
        have hs₁ : lastSeen st₁ o.location = none := (hst o.location).trans hs
        simp only [ffillColGo, h', hs₁]
        exact congrArg _ (ih _ _ hst)

/-- Forward-filling one column is idempotent. -/
theorem ffillCol_idem (m : Metric) (d : List Obs) :
    ffillCol m (ffillCol m d) = ffillCol m d :=
  ffillColGo_idem m d [] [] (fun _ => rfl)

/-- Scans that fill distinct columns commute: their states are separate and
they read and write disjoint cells. -/
theorem ffillColGo_comm (m m' : Metric) (hne : m ≠ m') :
    ∀ (d : List Obs) (st st' : List (String × ℚ)),
      ffillColGo m st (ffillColGo m' st' d) =
        ffillColGo m' st' (ffillColGo m st d) := by
  intro d
  induction d with
  | nil => intro st st'; rfl
  | cons o rest ih =>
    intro st st'
    cases ha : o.getMetric m with
    | some va =>
      cases hb : o.getMetric m' with
      | some vb =>
        simp only [ffillColGo, ha, hb]
        exact congrArg _ (ih _ _)
      | none =>
        cases hs' : lastSeen st' o.location with
        | some w' =>
          have hget : (o.setMetric m' (some w')).getMetric m = some va := by
            rw [Obs.getMetric_setMetric_ne o (some w') (Ne.symm hne)]
            exact ha
          simp only [ffillColGo, ha, hb, hs', hget, Obs.location_setMetric]
          exact congrArg _ (ih _ _)
        | none =>
          simp only [ffillColGo, ha, hb, hs']
          exact congrArg _ (ih _ _)
    | none =>
      cases hb : o.getMetric m' with
      | some vb =>
        cases hs : lastSeen st o.location with
        | some w =>
          have hget : (o.setMetric m (some w)).getMetric m' = some vb := by
            rw [Obs.getMetric_setMetric_ne o (some w) hne]
            exact hb
          simp only [ffillColGo, ha, hb, hs, hget, Obs.location_setMetric]
          exact congrArg _ (ih _ _)
        | none =>
          simp only [ffillColGo, ha, hb, hs]
          exact congrArg _ (ih _ _)
      | none =>
        cases hs : lastSeen st o.location with
        | some w =>
          cases hs' : lastSeen st' o.location with
          | some w' =>
            have hga : (o.setMetric m' (some w')).getMetric m = none := by
              rw [Obs.getMetric_setMetric_ne o (some w') (Ne.symm hne)]
              exact ha
            have hgb : (o.setMetric m (some w)).getMetric m' = none := by
              rw [Obs.getMetric_setMetric_ne o (some w) hne]
              exact hb
            simp only [ffillColGo, ha, hb, hs, hs', hga, hgb,
              Obs.location_setMetric]
            rw [Obs.setMetric_setMetric_comm o (some w') (some w) (Ne.symm hne)]
            exact congrArg _ (ih _ _)
          | none =>
            have hga : (o.setMetric m (some w)).getMetric m' = none := by
              rw [Obs.getMetric_setMetric_ne o (some w) hne]
              exact hb
            simp only [ffillColGo, ha, hb, hs, hs', hga,
              Obs.location_setMetric]
            exact congrArg _ (ih _ _)
        | none =>
          cases hs' : lastSeen st' o.location with
          | some w' =>
            have hga : (o.setMetric m' (some w')).getMetric m = none := by
              rw [Obs.getMetric_setMetric_ne o (some w') (Ne.symm hne)]
              exact ha
            simp only [ffillColGo, ha, hb, hs, hs', hga,
              Obs.location_setMetric]
            exact congrArg _ (ih _ _)
          | none =>
            simp only [ffillColGo, ha, hb, hs, hs']
            exact congrArg _ (ih _ _)

theorem ffillCol_comm (m m' : Metric) (hne : m ≠ m') (d : List Obs) :
    ffillCol m (ffillCol m' d) = ffillCol m' (ffillCol m d) :=
  ffillColGo_comm m m' hne d [] []

/-- A column already stable under its own fill stays stable after any other
column is filled. -/
theorem ffillCol_fixed_preserved {m : Metric} (m' : Metric) {d : List Obs}
    (h : ffillCol m d = d) : ffillCol m (ffillCol m' d) = ffillCol m' d := by
  by_cases hmm : m = m'
  · subst hmm
    rw [h, h]
  · rw [ffillCol_comm m m' hmm d, h]

/-- A column already stable under its own fill stays stable through the
whole forward-fill loop. -/
theorem ffillCol_fixed_forwardFill {m : Metric} (ms : List Metric) :
    ∀ {d : List Obs}, ffillCol m d = d →
      ffillCol m (forwardFill ms d) = forwardFill ms d := by
  induction ms with
  | nil => intro d h; exact h
  | cons m₀ ms ih =>
    intro d h
    show ffillCol m (forwardFill ms (ffillCol m₀ d)) = _
    exact ih (ffillCol_fixed_preserved m₀ h)

/-- After the forward-fill loop, every listed column is stable under its own
fill. -/
theorem forwardFill_all_fixed (ms : List Metric) :
    ∀ (d : List Obs) (m : Metric), m ∈ ms →
      ffillCol m (forwardFill ms d) = forwardFill ms d := by
  induction ms with
  | nil => intro d m hm; exact absurd hm (List.not_mem_nil m)
  | cons m₀ ms ih =>
    intro d m hm
    show ffillCol m (forwardFill ms (ffillCol m₀ d)) = _
    rcases List.mem_cons.mp hm with hm | hm
    · subst hm
      exact ffillCol_fixed_forwardFill ms (ffillCol_idem m d)
    · exact ih (ffillCol m₀ d) m hm

/-- A dataset in which every listed column is stable is unchanged by the
forward-fill loop. -/
theorem forwardFill_of_fixed (ms : List Metric) :
    ∀ (d : List Obs), (∀ m ∈ ms, ffillCol m d = d) → forwardFill ms d = d := by
  induction ms with
  | nil => intro d _; rfl
  | cons m₀ ms ih =>
    intro d h
    show forwardFill ms (ffillCol m₀ d) = d
    rw [h m₀ (List.mem_cons_self m₀ ms)]
    exact ih d (fun m hm => h m (List.mem_cons_of_mem m₀ hm))

/-- Last element of a list, if any. -/
def lastOf {α : Type} : List α → Option α
  | [] => none
  | a :: l => some ((lastOf l).getD a)

theorem lastOf_eq_none {α : Type} (l : List α) :
    lastOf l = none ↔ l = [] := by
  cases l <;> simp [lastOf]

theorem lastOf_mem {α : Type} :
    ∀ (l : List α) (x : α), lastOf l = some x → x ∈ l := by
  intro l
  induction l with
  | nil => intro x h; exact absurd h (by simp [lastOf])
  | cons a l ih =>
    intro x h
    cases hl : lastOf l with
    | none => simp [lastOf, hl] at h; simp [h]
    | some b =>
      simp [lastOf, hl] at h
      exact h ▸ List.mem_cons_of_mem a (ih b hl)

/-- The carried value of a fill scan is the last non-`none` element, when
one exists, and the starting value otherwise. -/
theorem lastFillVal_eq (vals : List (Option ℚ)) (init : Option ℚ) :
    lastFillVal init vals =
      match lastOf (vals.filter (fun v => v.isSome)) with
      | some x => x
      | none => init := by
  induction vals generalizing init with
  | nil => rfl
  | cons v t ih =>
    cases v with
    | some w =>
      rw [lastFillVal_cons]
      rw [ih (some w)]
      simp only [List.filter_cons, Option.isSome_some, if_pos]
      cases hl : lastOf (t.filter (fun v => v.isSome)) with
      | none => simp [lastOf, hl]
      | some x => simp [lastOf, hl]
    | none =>
      rw [lastFillVal_cons]
      rw [ih init]
      simp [List.filter_cons]

theorem lastOf_map {α β : Type} (f : α → β) :
    ∀ l : List α, lastOf (l.map f) = (lastOf l).map f := by
  intro l
  induction l with
  | nil => rfl
  | cons a l ih =>
    cases hl : lastOf l with
    | none => simp [lastOf, List.map_cons, ih, hl]
    | some b => simp [lastOf, List.map_cons, ih, hl]

/-- Modelled from the spec: the observation with the greatest date among a
list of candidate observations ("the most recent"). -/
def maxDateObs : List Obs → Option Obs
  | [] => none
  | o :: rest =>
    match maxDateObs rest with
    | none => some o
    | some b => some (if b.date < o.date then o else b)

/-- Modelled from the spec: "the most recent non-missing value of the same
metric for the same entity": among the observations of entity `loc` dated
at or before `dt` whose `m`-cell is non-missing, the value carried by the
one with the greatest date. -/
def specMostRecent (m : Metric) (rows : List Obs) (loc : String) (dt : Nat) :
    Option ℚ :=
  (maxDateObs (rows.filter (fun o =>
      o.location == loc && decide (o.date ≤ dt) &&
        (o.getMetric m).isSome))).bind
    (fun o => o.getMetric m)

/-- On a strictly date-sorted list the most recent observation is the last
one. -/
theorem maxDateObs_of_sorted :
    ∀ l : List Obs, l.Pairwise (fun a b => a.date < b.date) →
      maxDateObs l = lastOf l := by
  intro l
  induction l with
  | nil => intro _; rfl
  | cons o t ih =>
    intro hp
    have hrel := (List.pairwise_cons.mp hp).1
    have htail := (List.pairwise_cons.mp hp).2
    cases hl : lastOf t with
    | none =>
      have : t = [] := (lastOf_eq_none t).mp hl
      subst this
      rfl
    | some b =>
      have hb : b ∈ t := lastOf_mem t b hl
      have hlt : o.date < b.date := hrel b hb
      show (match maxDateObs t with
            | none => some o
            | some b => some (if b.date < o.date then o else b)) = _
      rw [ih htail, hl]
      simp [lastOf, hl, Nat.not_lt.mpr (Nat.le_of_lt hlt),
        Nat.lt_asymm hlt]

/-- On a dataset whose per-entity observations appear in strictly ascending
date order, the value the row-order scan leaves at position `i` is exactly
the spec's "most recent non-missing value for that same entity". -/
theorem ffillVal_eq_specMostRecent (m : Metric) (rows : List Obs)
    (hsorted : rows.Pairwise
      (fun a b => a.location = b.location → a.date < b.date))
    (i : Nat) (h : i < rows.length) :
    ffillVal m rows i =
      specMostRecent m rows (rows.getD i defaultObs).location
        (rows.getD i defaultObs).date := by
  have hb : rows.getD i defaultObs = rows[i] := by
    simp [List.getD_eq_getElem?_getD, List.getElem?_eq_getElem h]
  have htake : rows.take (i + 1) = rows.take i ++ [rows[i]] := by
    rw [List.take_succ]
    simp [List.getElem?_eq_getElem h]
  have hmem_take : rows.getD i defaultObs ∈ rows.take (i + 1) := by
    rw [htake, hb]
    exact List.mem_append_right _ (List.mem_singleton.mpr rfl)
  have hmem_drop : rows.getD i defaultObs ∈ rows.drop i := by
    rw [List.drop_eq_getElem_cons h, hb]
    exact List.mem_cons_self _ _
  have hsplit1 :
      ∀ a ∈ rows.take (i + 1), ∀ c ∈ rows.drop (i + 1),
        a.location = c.location → a.date < c.date := by
    have hp : List.Pairwise
        (fun a b => a.location = b.location → a.date < b.date)
        (rows.take (i + 1) ++ rows.drop (i + 1)) := by
      rw [List.take_append_drop]
      exact hsorted
    exact (List.pairwise_append.mp hp).2.2
  have hsplit2 :
      ∀ a ∈ rows.take i, ∀ c ∈ rows.drop i,
        a.location = c.location → a.date < c.date := by
    have hp : List.Pairwise
        (fun a b => a.location = b.location → a.date < b.date)
        (rows.take i ++ rows.drop i) := by
      rw [List.take_append_drop]
      exact hsorted
    exact (List.pairwise_append.mp hp).2.2
  have hdropnil :
      (rows.drop (i + 1)).filter
        (fun o => o.location == (rows.getD i defaultObs).location &&
          decide (o.date ≤ (rows.getD i defaultObs).date) &&
          (o.getMetric m).isSome) = [] := by
    rw [List.filter_eq_nil_iff]
    intro o ho hP
    simp only [Bool.and_eq_true, beq_iff_eq, decide_eq_true_eq] at hP
    have hlt := hsplit1 _ hmem_take o ho hP.1.1.symm
    exact absurd hP.1.2 (Nat.not_le.mpr hlt)
  have htakecongr :
      (rows.take (i + 1)).filter
        (fun o => o.location == (rows.getD i defaultObs).location &&
          decide (o.date ≤ (rows.getD i defaultObs).date) &&
          (o.getMetric m).isSome) =
      (rows.take (i + 1)).filter
        (fun o => o.location == (rows.getD i defaultObs).location &&
          (o.getMetric m).isSome) := by
    apply List.filter_congr
    intro o ho
    by_cases hA : (o.location == (rows.getD i defaultObs).location) = true
    · have hle : o.date ≤ (rows.getD i defaultObs).date := by
        rw [htake] at ho
        rcases List.mem_append.mp ho with ho' | ho'
        · have hloceq : o.location = (rows.getD i defaultObs).location := by
            simpa using hA
          exact Nat.le_of_lt (hsplit2 o ho' _ hmem_drop hloceq)
        · have : o = rows[i] := List.mem_singleton.mp ho'
          rw [this, hb]
      have hB : decide (o.date ≤ (rows.getD i defaultObs).date) = true :=
        decide_eq_true hle
      rw [hA, hB]
      simp only [Bool.true_and]
    · simp only [Bool.not_eq_true] at hA
      rw [hA]
      simp only [Bool.false_and]
  have hC :
      rows.filter
        (fun o => o.location == (rows.getD i defaultObs).location &&
          decide (o.date ≤ (rows.getD i defaultObs).date) &&
          (o.getMetric m).isSome) =
      (rows.take (i + 1)).filter
        (fun o => o.location == (rows.getD i defaultObs).location &&
          (o.getMetric m).isSome) := by
    have hsplitlist :
        rows.filter
          (fun o => o.location == (rows.getD i defaultObs).location &&
            decide (o.date ≤ (rows.getD i defaultObs).date) &&
            (o.getMetric m).isSome) =
        (rows.take (i + 1)).filter
          (fun o => o.location == (rows.getD i defaultObs).location &&
            decide (o.date ≤ (rows.getD i defaultObs).date) &&
            (o.getMetric m).isSome) ++
        (rows.drop (i + 1)).filter
          (fun o => o.location == (rows.getD i defaultObs).location &&
            decide (o.date ≤ (rows.getD i defaultObs).date) &&
            (o.getMetric m).isSome) := by
      rw [← List.filter_append, List.take_append_drop]
    rw [hsplitlist, hdropnil, List.append_nil, htakecongr]
  have hCpair :
      (rows.filter
        (fun o => o.location == (rows.getD i defaultObs).location &&
          decide (o.date ≤ (rows.getD i defaultObs).date) &&
          (o.getMetric m).isSome)).Pairwise (fun a b => a.date < b.date) := by
    have hsub := List.filter_sublist (l := rows)
      (p := fun o => o.location == (rows.getD i defaultObs).location &&
        decide (o.date ≤ (rows.getD i defaultObs).date) &&
        (o.getMetric m).isSome)
    have hR := hsorted.sublist hsub
    refine hR.imp_of_mem ?_
    intro a c ha hc hac
    have ha' := (List.mem_filter.mp ha).2
    have hc' := (List.mem_filter.mp hc).2
    simp only [Bool.and_eq_true, beq_iff_eq] at ha' hc'
    exact hac (ha'.1.1.trans hc'.1.1.symm)
  have hfuse :
      List.filter ((fun v : Option ℚ => v.isSome) ∘ fun o : Obs => o.getMetric m)
        (List.filter
          (fun o => o.location == (rows.getD i defaultObs).location)
          (rows.take (i + 1))) =
      (rows.take (i + 1)).filter
        (fun o => o.location == (rows.getD i defaultObs).location &&
          (o.getMetric m).isSome) := by
    rw [List.filter_filter]
    apply List.filter_congr
    intro x hx
    simp [Function.comp, Bool.and_comm]
  rw [ffillVal, lastFillVal_eq, List.filter_map, lastOf_map, hfuse, ← hC,
    specMostRecent, maxDateObs_of_sorted _ hCpair]
  cases hx : lastOf (rows.filter
      (fun o => o.location == (rows.getD i defaultObs).location &&
        decide (o.date ≤ (rows.getD i defaultObs).date) &&
        (o.getMetric m).isSome)) with
  | none => simp
  | some x => simp

/-- The spec's worked example: entity "A" with cumulative-case series
[10, missing, missing, 40] on four consecutive dates. -/
def exampleA : List Obs :=
  [{ defaultObs with location := "A", date := 0, total_cases := some 10 },
   { defaultObs with location := "A", date := 1 },
   { defaultObs with location := "A", date := 2 },
   { defaultObs with location := "A", date := 3, total_cases := some 40 }]

/-- C1: on a dataset whose per-entity observations appear in ascending date
order (the data-model invariant gives strict ascent), forward-filling a
selected metric rewrites every row's cell to the most recent non-missing
value of that metric for that same entity (so a non-missing cell keeps its
own value, and a cell with no earlier non-missing same-entity value stays
missing); and the series [10, missing, missing, 40] on four consecutive
dates for one entity forward-fills to [10, 10, 10, 40]. -/
theorem claim_C1_forward_fill_most_recent (m : Metric) (rows : List Obs)
    (hsorted : rows.Pairwise
      (fun a b => a.location = b.location → a.date < b.date)) :
    (∀ i, i < rows.length →
      (ffillCol m rows).getD i defaultObs =
        (rows.getD i defaultObs).setMetric m
          (specMostRecent m rows (rows.getD i defaultObs).location
            (rows.getD i defaultObs).date)) ∧
    (ffillCol Metric.total_cases exampleA).map
        (fun o => o.getMetric Metric.total_cases) =
      [some 10, some 10, some 10, some 40] := by
  constructor
  · intro i hi
    rw [ffillCol_getD m rows i hi,
      ffillVal_eq_specMostRecent m rows hsorted i hi]
  · rfl

theorem claim_C1_forward_fill_most_recent_witness :
    exampleA.Pairwise (fun a b => a.location = b.location → a.date < b.date) ∧
    (ffillCol Metric.total_cases exampleA).getD 1 defaultObs =
      (exampleA.getD 1 defaultObs).setMetric Metric.total_cases
        (specMostRecent Metric.total_cases exampleA
          (exampleA.getD 1 defaultObs).location
          (exampleA.getD 1 defaultObs).date) :=
  ⟨by decide,
    (claim_C1_forward_fill_most_recent Metric.total_cases exampleA
      (by decide)).1 1 (by decide)⟩

/-- C2: forward-fill is applied independently per entity: the rows of any
one location in the filled output are a function of that location's rows
alone, so two datasets agreeing on entity `loc`'s rows (however the other
entities' rows are interleaved) produce identical filled rows for `loc` —
in particular no gap of one entity is ever filled from another entity's
values. -/
theorem claim_C2_per_entity_independence (ms : List Metric) (loc : String)
    (d₁ d₂ : List Obs)
    (h : d₁.filter (fun o => o.location == loc) =
        d₂.filter (fun o => o.location == loc)) :
    (forwardFill ms d₁).filter (fun o => o.location == loc) =
      (forwardFill ms d₂).filter (fun o => o.location == loc) := by
  rw [forwardFill_filter, forwardFill_filter, h]

def rowA0 : Obs :=
  { defaultObs with location := "A", date := 0, total_cases := some 10 }

def rowB1 : Obs :=
  { defaultObs with location := "B", date := 1, total_cases := some 99 }

def rowA2 : Obs :=
  { defaultObs with location := "A", date := 2 }

theorem claim_C2_per_entity_independence_witness :
    ([rowA0, rowB1, rowA2].filter (fun o => o.location == "A") =
      [rowA0, rowA2].filter (fun o => o.location == "A")) ∧
    (forwardFill trackerMetrics [rowA0, rowB1, rowA2]).filter
        (fun o => o.location == "A") =
      (forwardFill trackerMetrics [rowA0, rowA2]).filter
        (fun o => o.location == "A") :=
  ⟨by decide,
    claim_C2_per_entity_independence trackerMetrics "A" _ _ (by decide)⟩

/-- C7: the per-entity forward-fill transform is idempotent — applying the
whole `key_metrics` fill loop to its own output returns it unchanged. -/
theorem claim_C7_forwardFill_idempotent (ms : List Metric) (d : List Obs) :
    forwardFill ms (forwardFill ms d) = forwardFill ms d :=
  forwardFill_of_fixed ms (forwardFill ms d)
    (fun m hm => forwardFill_all_fixed ms d m hm)

/-- Row-level behaviour of the death-rate assignment: the cell is defined
exactly when the (filled) cumulative cases are a known positive value and
the (filled) cumulative deaths are known, and then carries
deaths / cases × 100. -/
theorem death_rate_characterization (p : Obs) :
    (((computeDeathRate p).death_rate).isSome ↔
      ((∃ c : ℚ, p.total_cases = some c ∧ 0 < c) ∧
        (p.total_deaths).isSome)) ∧
    (∀ c d : ℚ, p.total_cases = some c → 0 < c → p.total_deaths = some d →
      (computeDeathRate p).death_rate = some (d / c * 100)) := by
  constructor
  · rcases h1 : p.total_cases with _ | c
    · simp [computeDeathRate, h1]
    · rcases h2 : p.total_deaths with _ | d
      · simp [computeDeathRate, h1, h2]
      · by_cases hc : (0 : ℚ) < c
        · simp [computeDeathRate, h1, h2, hc]
        · simp [computeDeathRate, h1, h2, hc]
  · intro c d hc hcpos hd
    simp [computeDeathRate, hc, hd, hcpos]

/-- C3: in the cleaned dataset (either script's pipeline), death_rate is
defined exactly when the observation's filled cumulative cases are a known
positive value and its filled cumulative deaths are known, and then equals
deaths / cases × 100; otherwise it is left undefined. -/
theorem claim_C3_death_rate_definition (cs : List String) (d₁ d₂ : Nat)
    (rows : List Obs) (o : Obs)
    (ho : o ∈ cleanTracker cs rows ∨ o ∈ cleanDashboard cs d₁ d₂ rows) :
    ((o.death_rate).isSome ↔
      ((∃ c : ℚ, o.total_cases = some c ∧ 0 < c) ∧
        (o.total_deaths).isSome)) ∧
    (∀ c d : ℚ, o.total_cases = some c → 0 < c → o.total_deaths = some d →
      o.death_rate = some (d / c * 100)) := by
  rcases ho with ho | ho
  · rcases List.mem_map.mp ho with ⟨p, _, rfl⟩
    exact death_rate_characterization p
  · rcases List.mem_map.mp ho with ⟨p, _, rfl⟩
    exact death_rate_characterization p

def exC3row : Obs :=
  { defaultObs with
      location := "Kenya"
      date := 0
      total_cases := some 100
      total_deaths := some 5 }

theorem claim_C3_death_rate_definition_witness :
    (computeDeathRate exC3row ∈ cleanTracker trackerCountries [exC3row]) ∧
    (computeDeathRate exC3row).death_rate = some 5 := by
  refine ⟨List.mem_singleton.mpr rfl, ?_⟩
  have h := claim_C3_death_rate_definition trackerCountries 0 0 [exC3row]
    (computeDeathRate exC3row) (Or.inl (List.mem_singleton.mpr rfl))
  have h5 := h.2 100 5 (by decide) (by norm_num) (by decide)
  rw [h5]
  norm_num

def exC4row : Obs :=
  { defaultObs with
      location := "Kenya"
      date := 0
      total_cases := some 100
      total_deaths := some 200 }

/-- When both operands are known cells, the death-rate cell is the guarded
ratio. -/
theorem computeDeathRate_some_some (p : Obs) (c d : ℚ)
    (hc : p.total_cases = some c) (hd : p.total_deaths = some d) :
    (computeDeathRate p).death_rate =
      if 0 < c then some (d / c * 100) else none := by
  simp [computeDeathRate, hc, hd]

theorem computeDeathRate_zero_cases (p : Obs) (h : p.total_cases = some 0) :
    (computeDeathRate p).death_rate = none := by
  rcases h2 : p.total_deaths with _ | d
  · simp [computeDeathRate, h, h2]
  · simp [computeDeathRate, h, h2, lt_irrefl]

/-- C4 fails as stated: the pipeline accepts an observation whose cumulative
deaths exceed its cumulative cases, and then death_rate exceeds 100. -/
theorem claim_C4_counterexample :
    ∃ o ∈ cleanTracker trackerCountries [exC4row], ∃ r : ℚ,
      o.death_rate = some r ∧ ¬(r ≤ 100) := by
  refine ⟨computeDeathRate exC4row, List.mem_singleton.mpr rfl, 200, ?_,
    by norm_num⟩
  have h : (computeDeathRate exC4row).death_rate =
      some (200 / 100 * 100) := rfl
  rw [h]
  norm_num

/-- C4 (amended): in the cleaned dataset death_rate is undefined on every
observation whose filled cumulative cases equal 0, and on every observation
whose known filled cumulative deaths lie between 0 and its filled cumulative
cases, a defined death_rate lies in [0, 100]. -/
theorem claim_C4_death_rate_bounds (cs : List String) (d₁ d₂ : Nat)
    (rows : List Obs) (o : Obs)
    (ho : o ∈ cleanTracker cs rows ∨ o ∈ cleanDashboard cs d₁ d₂ rows) :
    (o.total_cases = some 0 → o.death_rate = none) ∧
    (∀ r : ℚ, o.death_rate = some r →
      ∀ c d : ℚ, o.total_cases = some c → o.total_deaths = some d →
        0 ≤ d → d ≤ c → 0 ≤ r ∧ r ≤ 100) := by
  have hrow : ∀ p : Obs,
      (p.total_cases = some 0 → (computeDeathRate p).death_rate = none) ∧
      (∀ r : ℚ, (computeDeathRate p).death_rate = some r →
        ∀ c d : ℚ, p.total_cases = some c → p.total_deaths = some d →
          0 ≤ d → d ≤ c → 0 ≤ r ∧ r ≤ 100) := by
    intro p
    constructor
    · intro h
      exact computeDeathRate_zero_cases p h
    · intro r hr c d hc hd hd0 hdc
      rw [computeDeathRate_some_some p c d hc hd] at hr
      by_cases hcpos : (0 : ℚ) < c
      · rw [if_pos hcpos] at hr
        have hrv : r = d / c * 100 := (Option.some_inj.mp hr).symm
        subst hrv
        constructor
        · exact mul_nonneg (div_nonneg hd0 (le_of_lt hcpos)) (by norm_num)
        · have h1 : d / c ≤ 1 := (div_le_one hcpos).mpr hdc
          calc d / c * 100 ≤ 1 * 100 :=
                mul_le_mul_of_nonneg_right h1 (by norm_num)
            _ = 100 := one_mul 100
      · rw [if_neg hcpos] at hr
        exact absurd hr (by simp)
  rcases ho with ho | ho
  · rcases List.mem_map.mp ho with ⟨p, _, rfl⟩
    exact hrow p
  · rcases List.mem_map.mp ho with ⟨p, _, rfl⟩
    exact hrow p

theorem claim_C4_death_rate_bounds_witness :
    0 ≤ (5 : ℚ) ∧ (5 : ℚ) ≤ 100 := by
  have h := claim_C4_death_rate_bounds trackerCountries 0 0 [exC3row]
    (computeDeathRate exC3row) (Or.inl (List.mem_singleton.mpr rfl))
  have h5 : (computeDeathRate exC3row).death_rate = some 5 := by
    have hx : (computeDeathRate exC3row).death_rate =
        some (5 / 100 * 100) := rfl
    rw [hx]
    norm_num
  exact h.2 5 h5 100 5 (by decide) (by decide) (by norm_num) (by norm_num)

/-- The post-filter part of the tracker pipeline: forward-fill plus the
death-rate assignment. -/
def trackerSteps (d : List Obs) : List Obs :=
  (forwardFill trackerMetrics d).map computeDeathRate

/-- The post-filter part of the dashboard pipeline: forward-fill plus the
death-rate and vaccination-rate assignments. -/
def dashboardSteps (d : List Obs) : List Obs :=
  (forwardFill dashboardMetrics d).map
    (fun o => computeVaccinationRate (computeDeathRate o))

theorem computeDeathRate_frame (o : Obs) :
    (computeDeathRate o).location = o.location ∧
    (computeDeathRate o).date = o.date ∧
    (computeDeathRate o).iso_code = o.iso_code ∧
    (computeDeathRate o).population = o.population ∧
    (computeDeathRate o).people_fully_vaccinated_per_hundred =
      o.people_fully_vaccinated_per_hundred ∧
    (computeDeathRate o).vaccination_rate = o.vaccination_rate ∧
    ∀ m : Metric, (computeDeathRate o).getMetric m = o.getMetric m := by
  refine ⟨rfl, rfl, rfl, rfl, rfl, rfl, fun m => ?_⟩
  cases m <;> rfl

theorem computeVaccinationRate_frame (o : Obs) :
    (computeVaccinationRate o).location = o.location ∧
    (computeVaccinationRate o).date = o.date ∧
    (computeVaccinationRate o).iso_code = o.iso_code ∧
    (computeVaccinationRate o).population = o.population ∧
    (computeVaccinationRate o).people_fully_vaccinated_per_hundred =
      o.people_fully_vaccinated_per_hundred ∧
    ∀ m : Metric, (computeVaccinationRate o).getMetric m = o.getMetric m := by
  refine ⟨rfl, rfl, rfl, rfl, rfl, fun m => ?_⟩
  cases m <;> rfl

theorem getD_map_of_lt {α β : Type} (f : α → β) (l : List α) (i : Nat)
    (h : i < l.length) (d : α) (d' : β) :
    (l.map f).getD i d' = f (l.getD i d) := by
  rw [List.getD_eq_getElem?_getD, List.getD_eq_getElem?_getD,
    List.getElem?_map, List.getElem?_eq_getElem h]
  rfl

theorem length_trackerSteps (d : List Obs) :
    (trackerSteps d).length = d.length := by
  rw [trackerSteps, List.length_map, length_forwardFill]

theorem length_dashboardSteps (d : List Obs) :
    (dashboardSteps d).length = d.length := by
  rw [dashboardSteps, List.length_map, length_forwardFill]

/-- C9: the post-filter cleaning steps of both scripts keep the row count,
keep every row's entity identifier and date, and leave all columns other
than the selected key metrics and the added rate columns unchanged — for
the tracker this includes the `people_vaccinated` metric (not in its
`key_metrics`) and the `vaccination_rate` column it never assigns. -/
theorem claim_C9_frame_preservation (d : List Obs) (i : Nat)
    (h : i < d.length) :
    (trackerSteps d).length = d.length ∧
    (dashboardSteps d).length = d.length ∧
    ((trackerSteps d).getD i defaultObs).location =
      (d.getD i defaultObs).location ∧
    ((trackerSteps d).getD i defaultObs).date =
      (d.getD i defaultObs).date ∧
    ((trackerSteps d).getD i defaultObs).iso_code =
      (d.getD i defaultObs).iso_code ∧
    ((trackerSteps d).getD i defaultObs).population =
      (d.getD i defaultObs).population ∧
    ((trackerSteps d).getD i defaultObs).people_fully_vaccinated_per_hundred =
      (d.getD i defaultObs).people_fully_vaccinated_per_hundred ∧
    ((trackerSteps d).getD i defaultObs).getMetric Metric.people_vaccinated =
      (d.getD i defaultObs).getMetric Metric.people_vaccinated ∧
    ((trackerSteps d).getD i defaultObs).vaccination_rate =
      (d.getD i defaultObs).vaccination_rate ∧
    ((dashboardSteps d).getD i defaultObs).location =
      (d.getD i defaultObs).location ∧
    ((dashboardSteps d).getD i defaultObs).date =
      (d.getD i defaultObs).date ∧
    ((dashboardSteps d).getD i defaultObs).iso_code =
      (d.getD i defaultObs).iso_code ∧
    ((dashboardSteps d).getD i defaultObs).population =
      (d.getD i defaultObs).population ∧
    ((dashboardSteps d).getD i defaultObs).people_fully_vaccinated_per_hundred =
      (d.getD i defaultObs).people_fully_vaccinated_per_hundred := by
  have hlt : i < (forwardFill trackerMetrics d).length := by
    rw [length_forwardFill]; exact h
  have hld : i < (forwardFill dashboardMetrics d).length := by
    rw [length_forwardFill]; exact h
  have hft := forwardFill_getD_frame trackerMetrics d i h
  have hfd := forwardFill_getD_frame dashboardMetrics d i h
  have hmt : (trackerSteps d).getD i defaultObs =
      computeDeathRate ((forwardFill trackerMetrics d).getD i defaultObs) :=
    getD_map_of_lt computeDeathRate _ i hlt defaultObs defaultObs
  have hmd : (dashboardSteps d).getD i defaultObs =
      computeVaccinationRate (computeDeathRate
        ((forwardFill dashboardMetrics d).getD i defaultObs)) :=
    getD_map_of_lt _ _ i hld defaultObs defaultObs
  obtain ⟨t1, t2, t3, t4, t5, _, t7, t8⟩ := hft
  obtain ⟨u1, u2, u3, u4, u5, _, _, _⟩ := hfd
  have hpv : Metric.people_vaccinated ∉ trackerMetrics := by decide
  obtain ⟨c1, c2, c3, c4, c5, c6, c7⟩ :=
    computeDeathRate_frame ((forwardFill trackerMetrics d).getD i defaultObs)
  obtain ⟨d1, d2, d3, d4, d5, _⟩ :=
    computeDeathRate_frame ((forwardFill dashboardMetrics d).getD i defaultObs)
  obtain ⟨v1, v2, v3, v4, v5, _⟩ :=
    computeVaccinationRate_frame (computeDeathRate
      ((forwardFill dashboardMetrics d).getD i defaultObs))
  refine ⟨length_trackerSteps d, length_dashboardSteps d, ?_, ?_, ?_, ?_, ?_,
    ?_, ?_, ?_, ?_, ?_, ?_, ?_⟩
  · rw [hmt, c1]; exact t1
  · rw [hmt, c2]; exact t3
  · rw [hmt, c3]; exact t2
  · rw [hmt, c4]; exact t4
  · rw [hmt, c5]; exact t5
  · rw [hmt, c7 Metric.people_vaccinated]
    exact t8 Metric.people_vaccinated hpv
  · rw [hmt, c6]; exact t7
  · rw [hmd, v1, d1]; exact u1
  · rw [hmd, v2, d2]; exact u3
  · rw [hmd, v3, d3]; exact u2
  · rw [hmd, v4, d4]; exact u4
  · rw [hmd, v5, d5]; exact u5

theorem claim_C9_frame_preservation_witness :
    (trackerSteps [exC3row]).length = 1 ∧
    ((trackerSteps [exC3row]).getD 0 defaultObs).location =
      ([exC3row].getD 0 defaultObs).location := by
  have h := claim_C9_frame_preservation [exC3row] 0 (by decide)
  exact ⟨h.1, h.2.2.1⟩

/-- Model of `Series.rolling(window=7).mean()` (src/covid_tracker.py line 134,
src/covid_dashboard.py lines 154–156): with the default
`min_periods = window = 7`, position `i` carries a value only when a full
window of 7 non-NaN values ends at `i`, namely their arithmetic mean. -/
def rollingMean7 (xs : List (Option ℚ)) : List (Option ℚ) :=
  (List.range xs.length).map (fun i =>
    if i < 6 then none
    else
      if ((xs.take (i + 1)).drop (i - 6)).all (fun v => v.isSome) then
        some ((((xs.take (i + 1)).drop (i - 6)).map
          (fun v => v.getD 0)).sum / 7)
      else none)

/-- The date-ordered series of one metric for one entity
(`country_data['new_cases']` in the tracker, one location's group in the
dashboard's groupby-transform). -/
def seriesOf (m : Metric) (loc : String) (rows : List Obs) :
    List (Option ℚ) :=
  (rows.filter (fun o => o.location == loc)).map (fun o => o.getMetric m)

theorem length_rollingMean7 (xs : List (Option ℚ)) :
    (rollingMean7 xs).length = xs.length := by
  rw [rollingMean7, List.length_map, List.length_range]

theorem rollingMean7_getD (xs : List (Option ℚ)) (i : Nat)
    (h : i < xs.length) :
    (rollingMean7 xs).getD i none =
      if i < 6 then none
      else
        if ((xs.take (i + 1)).drop (i - 6)).all (fun v => v.isSome) then
          some ((((xs.take (i + 1)).drop (i - 6)).map
            (fun v => v.getD 0)).sum / 7)
        else none := by
  have hr : i < (List.range xs.length).length := by
    rw [List.length_range]; exact h
  rw [rollingMean7, getD_map_of_lt _ _ i hr 0 none]
  have : (List.range xs.length).getD i 0 = i := by
    rw [List.getD_eq_getElem?_getD, List.getElem?_range h]
    rfl
  rw [this]

/-- C5: the rolling value is a trailing 7-observation mean over an entity's
date-ordered series: the first 6 positions are undefined, every position of
an entity with fewer than 7 observations is undefined, and over a constant
series of value `v` every defined rolling value equals `v`. -/
theorem claim_C5_rolling_seven (m : Metric) (loc : String)
    (rows : List Obs) :
    (rollingMean7 (seriesOf m loc rows)).length =
      (seriesOf m loc rows).length ∧
    (∀ i, i < (seriesOf m loc rows).length → i < 6 →
      (rollingMean7 (seriesOf m loc rows)).getD i none = none) ∧
    ((seriesOf m loc rows).length < 7 →
      ∀ i, i < (seriesOf m loc rows).length →
        (rollingMean7 (seriesOf m loc rows)).getD i none = none) ∧
    (∀ (v : ℚ) (n : Nat), seriesOf m loc rows = List.replicate n (some v) →
      ∀ i, i < n → ∀ q : ℚ,
        (rollingMean7 (seriesOf m loc rows)).getD i none = some q →
        q = v) := by
  have hfirst : ∀ i, i < (seriesOf m loc rows).length → i < 6 →
      (rollingMean7 (seriesOf m loc rows)).getD i none = none := by
    intro i hi h6
    rw [rollingMean7_getD _ i hi, if_pos h6]
  refine ⟨length_rollingMean7 _, hfirst, ?_, ?_⟩
  · intro hlen i hi
    exact hfirst i hi (by omega)
  · intro v n hs i hi q hq
    have hxs : (seriesOf m loc rows).length = n := by
      rw [hs, List.length_replicate]
    rw [rollingMean7_getD _ i (by rw [hxs]; exact hi)] at hq
    by_cases h6 : i < 6
    · rw [if_pos h6] at hq
      exact absurd hq (by simp)
    · rw [if_neg h6] at hq
      rw [hs, List.take_replicate, List.drop_replicate] at hq
      have hmin : min (i + 1) n = i + 1 := by omega
      rw [hmin] at hq
      have h7 : i + 1 - (i - 6) = 7 := by omega
      rw [h7] at hq
      have hall : (List.replicate 7 (some v)).all
          (fun x : Option ℚ => x.isSome) = true := by
        rw [List.all_eq_true]
        intro x hx
        rw [List.eq_of_mem_replicate hx]
        rfl
      rw [if_pos hall, List.map_replicate, List.sum_replicate] at hq
      simp only [Option.getD_some] at hq
      have hv : ((7 : Nat) • v : ℚ) / 7 = v := by
        rw [nsmul_eq_mul]
        push_cast
        exact mul_div_cancel_left₀ v (by norm_num)
      rw [hv] at hq
      exact (Option.some_inj.mp hq).symm

def exC5rows : List Obs :=
  (List.range 8).map (fun k =>
    { defaultObs with
        location := "A"
        date := k
        new_cases := some 3 })

theorem claim_C5_rolling_seven_witness :
    (rollingMean7 (seriesOf Metric.new_cases "A" exC5rows)).getD 3 none =
      none ∧
    (3 : ℚ) = 3 := by
  constructor
  · exact (claim_C5_rolling_seven Metric.new_cases "A" exC5rows).2.1 3
      (by decide) (by decide)
  · have hs : seriesOf Metric.new_cases "A" exC5rows =
        List.replicate 8 (some 3) := by decide
    have hval : (rollingMean7 (seriesOf Metric.new_cases "A" exC5rows)).getD
        7 none = some 3 := by
      rw [rollingMean7_getD _ 7 (by decide), if_neg (by omega), hs,
        List.take_replicate, List.drop_replicate]
      have hmin : min (7 + 1) 8 = 8 := by norm_num
      rw [hmin]
      have h7 : 8 - (7 - 6) = 7 := by norm_num
      rw [h7]
      have hall : (List.replicate 7 (some (3 : ℚ))).all
          (fun x => x.isSome) = true := by decide
      rw [if_pos hall, List.map_replicate, List.sum_replicate]
      simp only [Option.getD_some, nsmul_eq_mul]
      norm_num
    exact (claim_C5_rolling_seven Metric.new_cases "A" exC5rows).2.2.2 3 8
      hs 7 (by decide) 3 hval

/-- Stable insertion of a row into a date-ascending list: the row goes in
front of the first strictly later row, i.e. after any equal dates. -/
def insertByDate (o : Obs) : List Obs → List Obs
  | [] => [o]
  | b :: rest =>
    if o.date < b.date then o :: b :: rest else b :: insertByDate o rest

/-- Model of `x.sort_values('date')`: a stable ascending sort by date. -/
def sortByDate (l : List Obs) : List Obs := l.foldr insertByDate []

theorem mem_insertByDate (o x : Obs) :
    ∀ s : List Obs, x ∈ insertByDate o s ↔ x = o ∨ x ∈ s := by
  intro s
  induction s with
  | nil => simp [insertByDate]
  | cons b rest ih =>
    by_cases hd : o.date < b.date
    · simp [insertByDate, hd]
    · simp only [insertByDate, hd, if_false, List.mem_cons, ih]
      tauto

theorem mem_sortByDate (x : Obs) :
    ∀ l : List Obs, x ∈ sortByDate l ↔ x ∈ l := by
  intro l
  induction l with
  | nil => simp [sortByDate]
  | cons o rest ih =>
    show x ∈ insertByDate o (sortByDate rest) ↔ _
    rw [mem_insertByDate, ih]
    simp [eq_comm]

theorem length_insertByDate (o : Obs) :
    ∀ s : List Obs, (insertByDate o s).length = s.length + 1 := by
  intro s
  induction s with
  | nil => rfl
  | cons b rest ih =>
    by_cases hd : o.date < b.date
    · simp [insertByDate, hd]
    · simp [insertByDate, hd, ih]

theorem length_sortByDate :
    ∀ l : List Obs, (sortByDate l).length = l.length := by
  intro l
  induction l with
  | nil => rfl
  | cons o rest ih =>
    show (insertByDate o (sortByDate rest)).length = _
    rw [length_insertByDate, ih]
    rfl

theorem lastOf_insertByDate (o : Obs) :
    ∀ s : List Obs,
      lastOf (insertByDate o s) =
        if s.all (fun b => decide (b.date ≤ o.date)) then some o
        else lastOf s := by
  intro s
  induction s with
  | nil => simp [insertByDate, lastOf]
  | cons b rest ih =>
    by_cases hd : o.date < b.date
    · have hble : (decide (b.date ≤ o.date)) = false := by
        simp [Nat.not_le.mpr hd]
      have hall : ((b :: rest).all (fun b => decide (b.date ≤ o.date))) =
          false := by
        simp only [List.all_cons, hble, Bool.false_and]
      rw [insertByDate, if_pos hd, hall, if_neg (by simp)]
      show some ((lastOf (b :: rest)).getD o) = lastOf (b :: rest)
      rw [show lastOf (b :: rest) = some ((lastOf rest).getD b) from rfl]
      rfl
    · have hble : (decide (b.date ≤ o.date)) = true := by
        simp [Nat.not_lt.mp hd]
      rw [insertByDate, if_neg hd]
      show some ((lastOf (insertByDate o rest)).getD b) = _
      rw [ih]
      by_cases hall : (rest.all (fun b => decide (b.date ≤ o.date))) = true
      · rw [if_pos hall]
        have : ((b :: rest).all (fun b => decide (b.date ≤ o.date))) =
            true := by
          simp only [List.all_cons, hble, Bool.true_and, hall]
        rw [this, if_pos rfl]
        rfl
      · rw [if_neg hall]
        have hcons : ((b :: rest).all (fun b => decide (b.date ≤ o.date))) =
            false := by
          simp only [List.all_cons, hble, Bool.true_and]
          exact Bool.not_eq_true _ ▸ hall
        rw [hcons, if_neg (by simp)]
        have hrne : rest ≠ [] := by
          intro hcon
          exact hall (by rw [hcon]; rfl)
        cases hrest : lastOf rest with
        | none => exact absurd ((lastOf_eq_none rest).mp hrest) hrne
        | some y =>
          simp [lastOf, hrest]

/-- The last row of the date-sorted list is a maximum-date row of the
original list. -/
theorem sortByDate_last_max :
    ∀ l : List Obs, l ≠ [] →
      ∃ x, lastOf (sortByDate l) = some x ∧ x ∈ l ∧
        ∀ y ∈ l, y.date ≤ x.date := by
  intro l
  induction l with
  | nil => intro hcon; exact absurd rfl hcon
  | cons o rest ih =>
    intro _
    show ∃ x, lastOf (insertByDate o (sortByDate rest)) = some x ∧ _
    rw [lastOf_insertByDate]
    by_cases hall : ((sortByDate rest).all
        (fun b => decide (b.date ≤ o.date))) = true
    · refine ⟨o, by rw [if_pos hall], List.mem_cons_self o rest, ?_⟩
      intro y hy
      rcases List.mem_cons.mp hy with hy | hy
      · rw [hy]
      · have : y ∈ sortByDate rest := (mem_sortByDate y rest).mpr hy
        have := List.all_eq_true.mp hall y this
        simpa using this
    · have hrne : rest ≠ [] := by
        intro hcon
        exact hall (by rw [hcon]; rfl)
      rcases ih hrne with ⟨x, hx, hxm, hxmax⟩
      refine ⟨x, by rw [if_neg hall]; exact hx,
        List.mem_cons_of_mem o hxm, ?_⟩
      intro y hy
      rcases List.mem_cons.mp hy with hy | hy
      · rcases List.all_eq_false.mp (Bool.not_eq_true _ ▸ hall)
          with ⟨b, hb, hble⟩
        have hob : o.date < b.date := by simpa using hble
        have hbx : b.date ≤ x.date :=
          hxmax b ((mem_sortByDate b rest).mp hb)
        rw [hy]
        omega
      · exact hxmax y hy

/-- The distinct locations of the dataset (`groupby('location')` group
keys). -/
def locationsOf (rows : List Obs) : List String :=
  (rows.map (fun o => o.location)).dedup

/-- Model of `filtered_df.groupby('location').apply(lambda x:
x.sort_values('date').iloc[-1])` (src/covid_tracker.py lines 100–102,
src/covid_dashboard.py lines 101–103): one row per distinct location — the
last row of that location's date-sorted block. -/
def latestData (rows : List Obs) : List Obs :=
  (locationsOf rows).map (fun loc =>
    (lastOf (sortByDate (rows.filter (fun o => o.location == loc)))).getD
      defaultObs)

theorem latest_pick_spec (rows : List Obs) (loc : String)
    (hloc : loc ∈ locationsOf rows) :
    ∃ x, lastOf (sortByDate (rows.filter (fun o => o.location == loc))) =
        some x ∧
      x ∈ rows ∧ x.location = loc ∧
      ∀ y ∈ rows, y.location = loc → y.date ≤ x.date := by
  have hex : ∃ r ∈ rows, r.location = loc := by
    rw [locationsOf] at hloc
    have := List.mem_dedup.mp hloc
    rcases List.mem_map.mp this with ⟨r, hr, hrl⟩
    exact ⟨r, hr, hrl⟩
  rcases hex with ⟨r, hr, hrl⟩
  have hne : rows.filter (fun o => o.location == loc) ≠ [] := by
    intro hcon
    have : r ∈ rows.filter (fun o => o.location == loc) :=
      List.mem_filter.mpr ⟨hr, by simp [hrl]⟩
    rw [hcon] at this
    exact absurd this (List.not_mem_nil r)
  rcases sortByDate_last_max _ hne with ⟨x, hx, hxm, hxmax⟩
  have hxf := List.mem_filter.mp hxm
  refine ⟨x, hx, hxf.1, by simpa using hxf.2, ?_⟩
  intro y hy hyl
  exact hxmax y (List.mem_filter.mpr ⟨hy, by simp [hyl]⟩)

/-- C6: under the data-model invariant (at most one observation per
entity–date pair), the latest-snapshot reduction selects, for each entity
present in the dataset, exactly one observation — one of that entity's own
rows carrying its maximum date, unique by the invariant. -/
theorem claim_C6_latest_snapshot (rows : List Obs)
    (hinv : ∀ a ∈ rows, ∀ b ∈ rows,
      a.location = b.location → a.date = b.date → a = b)
    (loc : String) (hloc : loc ∈ locationsOf rows) :
    (latestData rows).countP (fun o => o.location == loc) = 1 ∧
    ∃ o, o ∈ latestData rows ∧ o.location = loc ∧ o ∈ rows ∧
      (∀ o' ∈ rows, o'.location = loc → o'.date ≤ o.date) ∧
      (∀ o' ∈ rows, o'.location = loc → o'.date = o.date → o' = o) := by
  rcases latest_pick_spec rows loc hloc with ⟨x, hx, hxrows, hxloc, hxmax⟩
  constructor
  · rw [latestData, List.countP_map]
    have hcong : ∀ l' ∈ locationsOf rows,
        ((fun o : Obs => o.location == loc) ∘ (fun l' =>
          (lastOf (sortByDate
            (rows.filter (fun o => o.location == l')))).getD defaultObs))
          l' = (l' == loc) := by
      intro l' hl'
      rcases latest_pick_spec rows l' hl' with ⟨x', hx', _, hx'loc, _⟩
      show (((lastOf (sortByDate
          (rows.filter (fun o => o.location == l')))).getD
            defaultObs).location == loc) = (l' == loc)
      rw [hx']
      show (x'.location == loc) = (l' == loc)
      rw [hx'loc]
    have hcong2 : ∀ x ∈ locationsOf rows,
        (((fun o : Obs => o.location == loc) ∘ (fun l' =>
          (lastOf (sortByDate
            (rows.filter (fun o => o.location == l')))).getD defaultObs))
          x = true ↔ ((fun l' : String => l' == loc) x) = true) := by
      intro x hx
      rw [hcong x hx]
    rw [List.countP_congr hcong2]
    exact List.count_eq_one_of_mem (List.nodup_dedup _) hloc
  · refine ⟨x, ?_, hxloc, hxrows, hxmax, ?_⟩
    · rw [latestData]
      refine List.mem_map.mpr ⟨loc, hloc, ?_⟩
      rw [hx]
      rfl
    · intro o' ho' hl hd
      exact hinv o' ho' x hxrows (hl.trans hxloc.symm) hd

theorem claim_C6_latest_snapshot_witness :
    (latestData [rowA0, rowB1, rowA2]).countP
      (fun o => o.location == "A") = 1 :=
  (claim_C6_latest_snapshot [rowA0, rowB1, rowA2] (by decide) "A"
    (by decide)).1

/-- Model of src/covid_tracker.py lines 171–178: the per-country 30-day case-growth
commentary.  Outer `none`: the `len(country_data) >= 30` guard failed and no
line is printed.  Inner value: the printed growth —
`((current - month_ago) / month_ago * 100) if month_ago > 0 else 0`, where
`current` is `iloc[-1]['total_cases']` and `month_ago` is
`iloc[-30]['total_cases']` of the date-sorted country rows; a NaN
`month_ago` fails the `> 0` comparison (growth 0), a NaN `current` with a
positive baseline prints NaN (inner `none`). -/
def caseGrowth (rows : List Obs) (loc : String) : Option (Option ℚ) :=
  if 30 ≤ (sortByDate (rows.filter (fun o => o.location == loc))).length then
    some
      (match ((sortByDate (rows.filter (fun o => o.location == loc))).getD
          ((sortByDate (rows.filter
            (fun o => o.location == loc))).length - 30)
          defaultObs).total_cases with
        | some b =>
          if 0 < b then
            match ((sortByDate (rows.filter
                (fun o => o.location == loc))).getD
                ((sortByDate (rows.filter
                  (fun o => o.location == loc))).length - 1)
                defaultObs).total_cases with
              | some cur => some ((cur - b) / b * 100)
              | none => none
          else some 0
        | none => some 0)
  else none

/-- C10: the growth commentary is emitted exactly for entities with at
least 30 observations, and whenever the baseline 30 observations back is
missing or not strictly positive the emitted growth is 0 — never a
division by the baseline. -/
theorem claim_C10_growth_guarded (rows : List Obs) (loc : String) :
    ((rows.filter (fun o => o.location == loc)).length < 30 →
      caseGrowth rows loc = none) ∧
    (30 ≤ (rows.filter (fun o => o.location == loc)).length →
      (∃ g, caseGrowth rows loc = some g) ∧
      (∀ b : ℚ,
        ((sortByDate (rows.filter (fun o => o.location == loc))).getD
          ((sortByDate (rows.filter
            (fun o => o.location == loc))).length - 30)
          defaultObs).total_cases = some b →
        b ≤ 0 → caseGrowth rows loc = some (some 0)) ∧
      (((sortByDate (rows.filter (fun o => o.location == loc))).getD
          ((sortByDate (rows.filter
            (fun o => o.location == loc))).length - 30)
          defaultObs).total_cases = none →
        caseGrowth rows loc = some (some 0))) := by
  have hlen : (sortByDate (rows.filter (fun o => o.location == loc))).length
      = (rows.filter (fun o => o.location == loc)).length :=
    length_sortByDate _
  constructor
  · intro hsmall
    rw [caseGrowth, if_neg (by rw [hlen]; omega)]
  · intro hbig
    have hge : 30 ≤ (sortByDate (rows.filter
        (fun o => o.location == loc))).length := by rw [hlen]; exact hbig
    refine ⟨⟨_, by rw [caseGrowth, if_pos hge]⟩, ?_, ?_⟩
    · intro b hb hble
      rw [caseGrowth, if_pos hge, hb]
      simp [not_lt.mpr hble]
    · intro hb
      rw [caseGrowth, if_pos hge, hb]

def exC10rows : List Obs :=
  (List.range 30).map (fun k =>
    { defaultObs with
        location := "Kenya"
        date := k
        total_cases := some 0 })

theorem claim_C10_growth_guarded_witness :
    caseGrowth exC10rows "Kenya" = some (some 0) :=
  ((claim_C10_growth_guarded exC10rows "Kenya").2 (by decide)).2.1 0
    (by decide) (by norm_num)

/-! Schema-aware model of the tracker pipeline, for the column-presence
policy: here a dataframe carries its column list, so a metric column can be
absent from the source schema.  Reading an absent column
(`filtered_df['total_deaths']` with no such column) raises a pandas
KeyError, modelled as `Except.error` naming the column. -/

/-- A row of the schema-aware dataframe: its cells are an association list
from column name to (possibly NaN) value. -/
structure SRow where
  location : String
  date : Nat
  cells : List (String × Option ℚ)
  deriving DecidableEq

/-- A dataframe with an explicit column list. -/
structure SFrame where
  cols : List String
  rows : List SRow
  deriving DecidableEq

/-- The value of a row's cell (missing cell = NaN). -/
def cellVal (r : SRow) (c : String) : Option ℚ :=
  (r.cells.find? (fun p => p.1 == c)).bind (fun p => p.2)

/-- Write one cell of an association list. -/
def setCell (cells : List (String × Option ℚ)) (c : String) (v : Option ℚ) :
    List (String × Option ℚ) :=
  match cells with
  | [] => [(c, v)]
  | p :: rest => if p.1 == c then (c, v) :: rest else p :: setCell rest c v

/-- Column access `df[c]`, a KeyError when the column is absent. -/
def SFrame.col (df : SFrame) (c : String) :
    Except String (List (Option ℚ)) :=
  if c ∈ df.cols then
    Except.ok (df.rows.map (fun r => cellVal r c))
  else Except.error c

/-- Column assignment `df[c] = vals` (adds the column when new). -/
def setColVals (df : SFrame) (c : String) (vals : List (Option ℚ)) :
    SFrame :=
  { cols := if c ∈ df.cols then df.cols else df.cols ++ [c],
    rows := List.zipWith
      (fun r v => { r with cells := setCell r.cells c v }) df.rows vals }

/-- The per-location forward-fill scan over a (location, value) column. -/
def ffillSeries (st : List (String × ℚ)) :
    List (String × Option ℚ) → List (Option ℚ)
  | [] => []
  | (loc, v) :: rest =>
    match v with
    | some w => some w :: ffillSeries ((loc, w) :: st) rest
    | none => lastSeen st loc :: ffillSeries st rest

/-- One iteration of the `for metric in key_metrics` loop
(src/covid_tracker.py lines 35–40): the `if metric in
filtered_df.columns` guard skips an absent column; a present column is
re-assigned its per-location forward-fill. -/
def ffillColS (c : String) (df : SFrame) : SFrame :=
  if c ∈ df.cols then
    setColVals df c
      (ffillSeries [] (df.rows.map (fun r => (r.location, cellVal r c))))
  else df

/-- Model of src/covid_tracker.py line 28: restriction to the target entities; an
absent entity simply contributes no rows. -/
def filterLocS (locs : List String) (df : SFrame) : SFrame :=
  { df with rows := df.rows.filter (fun r => locs.contains r.location) }

/-- List `key_metrics` of src/covid_tracker.py line 34, as column names. -/
def trackerKeyCols : List String :=
  ["total_cases", "new_cases", "total_deaths", "new_deaths",
   "total_vaccinations"]

/-- Model of src/covid_tracker.py lines 43–47: the death-rate assignment reads the
`total_cases` and `total_deaths` columns unconditionally — with no
column-presence guard — before writing `death_rate`. -/
def deathRateStepS (df : SFrame) : Except String SFrame :=
  match df.col "total_cases" with
  | Except.error e => Except.error e
  | Except.ok tc =>
    match df.col "total_deaths" with
    | Except.error e => Except.error e
    | Except.ok td =>
      Except.ok (setColVals df "death_rate"
        (List.zipWith (fun c d =>
          match c, d with
          | some cv, some dv =>
            if 0 < cv then some (dv / cv * 100) else none
          | some _, none => none
          | none, _ => none) tc td))

/-- The tracker cleaning pipeline over the schema-aware dataframe:
filter, forward-fill loop, death-rate step. -/
def trackerPipeS (locs : List String) (df : SFrame) :
    Except String SFrame :=
  deathRateStepS
    (trackerKeyCols.foldl (fun d c => ffillColS c d) (filterLocS locs df))

theorem cols_ffillColS (c : String) (df : SFrame) :
    (ffillColS c df).cols = df.cols := by
  by_cases h : c ∈ df.cols
  · rw [ffillColS, if_pos h]
    show (if c ∈ df.cols then df.cols else df.cols ++ [c]) = df.cols
    rw [if_pos h]
  · rw [ffillColS, if_neg h]

theorem cols_ffill_foldl (cs : List String) :
    ∀ df : SFrame,
      (cs.foldl (fun d c => ffillColS c d) df).cols = df.cols := by
  induction cs with
  | nil => intro df; rfl
  | cons c cs ih =>
    intro df
    show (cs.foldl (fun d c => ffillColS c d) (ffillColS c df)).cols = _
    rw [ih, cols_ffillColS]

/-- A schema with a known positive `total_cases` but no `total_deaths`
column. -/
def exC8frame : SFrame :=
  { cols := ["total_cases"],
    rows := [{ location := "Kenya", date := 0,
               cells := [("total_cases", some 5)] }] }

/-- C8 fails as stated: on a source schema lacking the `total_deaths`
column the pipeline does not skip the absent metric — the death-rate step
accesses the column unconditionally and the run fails with a KeyError. -/
theorem claim_C8_counterexample :
    trackerPipeS trackerCountries exC8frame =
      Except.error "total_deaths" := by
  rfl

/-- C8 (amended): an entity absent from the dataset yields an empty subset
silently, and a metric column absent from the schema is skipped by the
forward-fill loop; but the death-rate step reads `total_cases` and
`total_deaths` unconditionally, so a schema without `total_deaths` makes
the pipeline fail with a KeyError instead of skipping. -/
theorem claim_C8_absent_column_policy (locs : List String) (df : SFrame) :
    ((∀ r ∈ df.rows, r.location ∉ locs) →
      (filterLocS locs df).rows = []) ∧
    (∀ c, c ∉ df.cols → ffillColS c df = df) ∧
    ("total_deaths" ∉ df.cols →
      ∃ e, trackerPipeS locs df = Except.error e) := by
  refine ⟨?_, ?_, ?_⟩
  · intro habs
    rw [filterLocS]
    simp only []
    rw [List.filter_eq_nil_iff]
    intro r hr
    simp only [Bool.not_eq_true]
    have := habs r hr
    rw [← Bool.not_eq_true]
    intro hcon
    exact this (by simpa using hcon)
  · intro c hc
    rw [ffillColS, if_neg hc]
  · intro hmiss
    rw [trackerPipeS]
    have hcols : (trackerKeyCols.foldl (fun d c => ffillColS c d)
        (filterLocS locs df)).cols = df.cols := by
      rw [cols_ffill_foldl]
      rfl
    rw [deathRateStepS]
    cases htc : (trackerKeyCols.foldl (fun d c => ffillColS c d)
        (filterLocS locs df)).col "total_cases" with
    | error e => exact ⟨e, rfl⟩
    | ok tc =>
      have htd : (trackerKeyCols.foldl (fun d c => ffillColS c d)
          (filterLocS locs df)).col "total_deaths" =
          Except.error "total_deaths" := by
        rw [SFrame.col, if_neg (by rw [hcols]; exact hmiss)]
      exact ⟨"total_deaths", by rw [htd]⟩

theorem claim_C8_absent_column_policy_witness :
    (filterLocS ["X"] exC8frame).rows = [] ∧
    ffillColS "new_cases" exC8frame = exC8frame ∧
    ∃ e, trackerPipeS ["X"] exC8frame = Except.error e :=
  ⟨(claim_C8_absent_column_policy ["X"] exC8frame).1 (by decide),
   (claim_C8_absent_column_policy ["X"] exC8frame).2.1 "new_cases"
     (by decide),
   (claim_C8_absent_column_policy ["X"] exC8frame).2.2 (by decide)⟩

end Covid
